import Mathlib

/-!
Verification of the model-metadata extraction subsystem of the
enhanced-filesystem MCP server (src/core/editor.ts): the Safetensors and
GGUF binary readers, `getModelInfo`, and `listModels`.

Embedding conventions, fixed throughout this file:

* A file's byte content is a `List Nat` (each entry a byte value 0..255).
* JavaScript strings are `List Char`; Node `Buffer`s are `List Nat`.
* `Buffer.alloc` zero-fills, and `fs.readSync` at or past end of file
  reads fewer bytes than requested leaving the rest of the buffer zero,
  so a positioned read never fails: it yields the file's bytes where
  present and `0` past the end (`readBytesAt`).
* JavaScript `Number(bigUint)` is modelled as the exact natural number.
  The double rounding that JS applies above 2^53 cannot change any of
  the comparisons performed by this code (their thresholds are far
  below 2^53), only the numeric value stored for astronomically large
  declared counts.
* Fallible code returns `Except String`; a JS `throw` is an `.error`,
  and a `try`/`catch` is a `match` on that `Except`.
-/

/-- Bytes of a requested read of `len` bytes at offset `off`: present file
bytes, zero past end of file (Node `Buffer.alloc` + partial `readSync`). -/
def readBytesAt (d : List Nat) (off len : Nat) : List Nat :=
  (List.range len).map (fun i => d.getD (off + i) 0)

/-- Little-endian value of a byte list (`readBigUInt64LE` and friends). -/
def leVal (bs : List Nat) : Nat :=
  bs.foldr (fun b acc => b + 256 * acc) 0

/-- Two's-complement reading of an unsigned `w`-bit value as a signed integer
(`readInt8`, `readInt16LE`, `readInt32LE`, `readBigInt64LE`). -/
def twosComp (w : Nat) (u : Nat) : Int :=
  if u < 2 ^ (w - 1) then (u : Int) else (u : Int) - 2 ^ w

/-- Node `buffer.toString` with encoding `ascii`: the high bit of every byte
is cleared and the remaining 7-bit value is taken as a character. -/
def asciiDecode (bs : List Nat) : List Char :=
  bs.map (fun b => Char.ofNat (b % 128))

/-- ASCII bytes of a Lean string literal (used for fixed keys the source
compares against; all such keys are 7-bit ASCII). -/
def strBytes (s : String) : List Nat :=
  s.data.map Char.toNat

/-- Decimal digits of a natural number, as characters. -/
def natChars (n : Nat) : List Char :=
  Nat.toDigits 10 n

/-- Decimal digits of a natural number, as ASCII byte values. -/
def natBytes (n : Nat) : List Nat :=
  (natChars n).map Char.toNat

-- ===========================================================================
-- GGUF reader (class GGUFReader and parseGGUF in src/core/editor.ts)
-- ===========================================================================

/-- A decoded GGUF metadata value. Integer-typed values (type tags 0-5, 10,
11) are collapsed into `vnum` carrying their exact integer value; `float32` /
`float64` values keep their raw little-endian bit pattern (`vf32bits` /
`vf64bits`) since nothing in this subsystem computes with them; strings are
kept as their raw bytes (`buffer.toString('utf-8')` is injective on the valid
UTF-8 key/value strings this identifies values by). The `> 100000`-element
array placeholder produced by `readValue` is an ordinary JS string, hence a
`vstr` here. -/
inductive GValue where
  | vnum (n : Int)
  | vf32bits (bits : Nat)
  | vf64bits (bits : Nat)
  | vbool (b : Bool)
  | vstr (s : List Nat)
  | varr (items : List GValue)
deriving BEq

/-- The placeholder summary string returned for an oversized array, as bytes:
the template string produced for an array of `n` declared items. -/
def placeholderBytes (n : Nat) : List Nat :=
  strBytes "[array of " ++ natBytes n ++ strBytes " items]"

/-- GGUFReader.readString: a uint64 length prefix followed by that many bytes;
lengths above 10 MiB throw. -/
def readStringV (d : List Nat) (off : Nat) : Except String (List Nat × Nat) :=
  if leVal (readBytesAt d off 8) > 10 * 1024 * 1024 then
    .error "String too long"
  else
    .ok (readBytesAt d (off + 8) (leVal (readBytesAt d off 8)),
         off + 8 + leVal (readBytesAt d off 8))

/-- Elementwise loop of `readValue` case 9: decode `n` successive values with
the element reader `rv`, threading the cursor, stopping at the first error. -/
def readArrayGo (rv : Nat → Except String (GValue × Nat)) :
    Nat → Nat → Except String (List GValue × Nat)
  | 0 => fun off => .ok ([], off)
  | n + 1 => fun off =>
    match rv off with
    | .error e => .error e
    | .ok (v, o1) =>
      match readArrayGo rv n o1 with
      | .error e => .error e
      | .ok (vs, o2) => .ok (v :: vs, o2)

/-- GGUFReader.readValue: decode one value of type tag `t` at offset `off`.
The `fuel` argument only serves Lean's termination checker; it bounds the
nesting depth of arrays. Every nesting level consumes 12 bytes of the stream
before recursing and reads past end of file decode as empty arrays, so depth
is bounded by `d.length / 12 + 2` and the callers' fuel (`d.length + 2`) can
never run out. -/
def readValueF (d : List Nat) : Nat → Nat → Nat → Except String (GValue × Nat)
  | 0, _, _ => .error "out of fuel"
  | fuel + 1, t, off =>
    if t = 0 then .ok (.vnum (leVal (readBytesAt d off 1)), off + 1)
    else if t = 1 then
      .ok (.vnum (twosComp 8 (leVal (readBytesAt d off 1))), off + 1)
    else if t = 2 then .ok (.vnum (leVal (readBytesAt d off 2)), off + 2)
    else if t = 3 then
      .ok (.vnum (twosComp 16 (leVal (readBytesAt d off 2))), off + 2)
    else if t = 4 then .ok (.vnum (leVal (readBytesAt d off 4)), off + 4)
    else if t = 5 then
      .ok (.vnum (twosComp 32 (leVal (readBytesAt d off 4))), off + 4)
    else if t = 6 then .ok (.vf32bits (leVal (readBytesAt d off 4)), off + 4)
    else if t = 7 then
      .ok (.vbool (leVal (readBytesAt d off 1) != 0), off + 1)
    else if t = 8 then
      match readStringV d off with
      | .error e => .error e
      | .ok (s, o1) => .ok (.vstr s, o1)
    else if t = 9 then
      if leVal (readBytesAt d (off + 4) 8) > 100000 then
        .ok (.vstr (placeholderBytes (leVal (readBytesAt d (off + 4) 8))),
             off + 12)
      else
        match readArrayGo (fun o => readValueF d fuel (leVal (readBytesAt d off 4)) o)
            (leVal (readBytesAt d (off + 4) 8)) (off + 12) with
        | .error e => .error e
        | .ok (vs, o1) => .ok (.varr vs, o1)
    else if t = 10 then .ok (.vnum (leVal (readBytesAt d off 8)), off + 8)
    else if t = 11 then
      .ok (.vnum (twosComp 64 (leVal (readBytesAt d off 8))), off + 8)
    else if t = 12 then .ok (.vf64bits (leVal (readBytesAt d off 8)), off + 8)
    else .error "Unknown GGUF type"

/-- One iteration body of the parseGGUF metadata loop: read a key string, a
uint32 type tag, and the value of that type. -/
def readKVPair (d : List Nat) (off : Nat) :
    Except String ((List Nat × GValue) × Nat) :=
  match readStringV d off with
  | .error e => .error e
  | .ok (key, o1) =>
    match readValueF d (d.length + 2) (leVal (readBytesAt d o1 4)) (o1 + 4) with
    | .error e => .error e
    | .ok (v, o2) => .ok ((key, v), o2)

/-- JS object assignment `metadata[key] = value`: an existing key keeps its
position and gets the new value, a new key is appended. (The numeric-string
key reordering JS objects additionally perform is irrelevant to every claim,
which only inspect the dictionary's content.) -/
def recordInsert (m : List (List Nat × GValue)) (k : List Nat) (v : GValue) :
    List (List Nat × GValue) :=
  if m.any (fun p => p.1 == k) then
    m.map (fun p => if p.1 == k then (k, v) else p)
  else m ++ [(k, v)]

/-- The parseGGUF key/value loop: up to `n` iterations; the `try`/`catch`
around each iteration turns the first failing pair into an immediate stop
that keeps everything decoded so far. -/
def kvLoop (d : List Nat) : Nat → Nat → List (List Nat × GValue) →
    List (List Nat × GValue) × Nat
  | 0 => fun off acc => (acc, off)
  | n + 1 => fun off acc =>
    match readKVPair d off with
    | .error _ => (acc, off)
    | .ok (kv, o1) => kvLoop d n o1 (recordInsert acc kv.1 kv.2)

/-- JS object property read `metadata[k]`: `recordInsert` keeps keys unique,
so the first match is the binding. -/
def recordGet (m : List (List Nat × GValue)) (k : List Nat) : Option GValue :=
  (m.find? (fun p => p.1 == k)).map (fun p => p.2)

/-- JS truthiness of a decoded metadata value: `0`, `false`, the empty
string, and floating ±0 / NaN are falsy, everything else truthy. -/
def jsTruthy : GValue → Bool
  | .vnum n => n != 0
  | .vbool b => b
  | .vstr s => !s.isEmpty
  | .varr _ => true
  | .vf32bits bits =>
    let expo := bits / 2 ^ 23 % 256
    let mant := bits % 2 ^ 23
    !((expo == 0 && mant == 0) || (expo == 255 && mant != 0))
  | .vf64bits bits =>
    let expo := bits / 2 ^ 52 % 2 ^ 11
    let mant := bits % 2 ^ 52
    !((expo == 0 && mant == 0) || (expo == 2047 && mant != 0))

/-- JS `a || b` on two possibly-absent values: a present truthy left operand
wins, otherwise the right operand is returned as is. -/
def jsOr (a b : Option GValue) : Option GValue :=
  match a with
  | some v => if jsTruthy v then some v else b
  | none => b

/-- Comma join used by JS `Array.prototype.toString`. -/
def joinCommaBytes : List (List Nat) → List Nat
  | [] => []
  | [x] => x
  | x :: y :: rest => x ++ (',').toNat :: joinCommaBytes (y :: rest)

mutual

/-- JS string conversion of a metadata value, as used by the template string
that builds the architecture-specific lookup keys. Exact for strings,
integers, booleans and (recursively comma-joined) arrays; a float-typed
architecture value is rendered as a marker that matches no metadata key,
standing in for JS's decimal float formatting, which this development does
not reproduce (no claim depends on a float-valued `general.architecture`). -/
def jsStringBytes : GValue → List Nat
  | .vnum n => (Int.repr n).data.map Char.toNat
  | .vbool b => if b then strBytes "true" else strBytes "false"
  | .vstr s => s
  | .varr items => joinCommaBytes (jsStringEach items)
  | .vf32bits bits => strBytes "float32bits:" ++ natBytes bits
  | .vf64bits bits => strBytes "float64bits:" ++ natBytes bits

/-- JS string conversion of each element of an array value. -/
def jsStringEach : List GValue → List (List Nat)
  | [] => []
  | v :: vs => jsStringBytes v :: jsStringEach vs

end

-- ===========================================================================
-- Filename helpers (node path.basename / path.extname, JS string methods)
-- ===========================================================================

/-- node `path.basename`: the final path component (POSIX separator). -/
def basenameOf (p : List Char) : List Char :=
  (p.reverse.takeWhile (fun c => !(c == '/'))).reverse

/-- node `path.extname`: from the last dot of the basename to the end; empty
when there is no dot or the only dot starts the basename. -/
def extnameOf (p : List Char) : List Char :=
  let b := basenameOf p
  let r := b.reverse
  let upToDot := r.takeWhile (fun c => !(c == '.'))
  if upToDot.length + 1 < b.length then (r.take (upToDot.length + 1)).reverse
  else []

/-- JS `String.prototype.toLowerCase` (the filenames involved are ASCII,
where this agrees with `Char.toLower`). -/
def toLowerChars (s : List Char) : List Char :=
  s.map Char.toLower

/-- JS `String.prototype.toUpperCase` on the (ASCII) quantization patterns. -/
def toUpperChars (s : List Char) : List Char :=
  s.map Char.toUpper

/-- Whether `pat` is a leading segment of `text`. -/
def charsBeginWith : List Char → List Char → Bool
  | [], _ => true
  | _ :: _, [] => false
  | p :: ps, c :: cs => p == c && charsBeginWith ps cs

/-- JS `String.prototype.includes`: `pat` occurs contiguously in the text. -/
def listIncludes (pat : List Char) : List Char → Bool
  | [] => pat.isEmpty
  | c :: t => charsBeginWith pat (c :: t) || listIncludes pat t

-- ===========================================================================
-- parseGGUF (src/core/editor.ts)
-- ===========================================================================

/-- The fixed ordered quantization pattern list scanned over the filename. -/
def quantPatterns : List (List Char) :=
  ["q2_k".data, "q3_k".data, "q4_k".data, "q4_0".data, "q4_1".data,
   "q5_k".data, "q5_0".data, "q5_1".data, "q6_k".data, "q8_0".data,
   "q8_1".data, "f16".data, "f32".data, "bf16".data, "iq2".data,
   "iq3".data, "iq4".data]

/-- The `for (const pattern of quantPatterns)` loop with its `break`: the
first pattern contained in the lower-cased filename wins, upper-cased. -/
def detectQuantGo (filename : List Char) : List (List Char) → Option (List Char)
  | [] => none
  | p :: ps =>
    if listIncludes p filename then some (toUpperChars p)
    else detectQuantGo filename ps

/-- The GGUFMetadata record built by parseGGUF (its constant `format` field
and the echoed `path` are omitted; `size` is the file's byte length from
`stat`). Keys are raw byte strings; the derived fields hold the raw looked-up
metadata values, mirroring the unchecked `as number | undefined` casts. -/
structure GGUFMeta where
  size : Nat
  version : Nat
  tensorCount : Nat
  metadataKVCount : Nat
  architecture : Option GValue
  quantization : Option (List Char)
  contextLength : Option GValue
  embeddingLength : Option GValue
  parameters : Option Int
  metadata : List (List Nat × GValue)

/-- JS numeric value of a metadata value where one is needed for the
parameter estimate: exact for integer values (and for booleans, which JS
coerces to 0/1). A float-typed or string-typed count is modelled as absent,
standing in for the NaN/approximate results JS arithmetic would give there;
no claim concerns the parameter estimate. -/
def toNumInt : GValue → Option Int
  | .vnum n => some n
  | .vbool b => some (if b then 1 else 0)
  | _ => none

/-- The `${architecture}.foo` template key: JS stringifies the architecture
value, rendering a missing one as the literal text `undefined`. -/
def archTemplateKey (arch : Option GValue) (suffix : String) : List Nat :=
  (match arch with
   | some v => jsStringBytes v
   | none => strBytes "undefined") ++ strBytes suffix

/-- The metadata dictionary decoded by the capped key/value loop of
parseGGUF: at most `min(metadataKVCount, 500)` pairs, starting right after
the 24 header bytes. -/
def ggufMetadataOf (d : List Nat) : List (List Nat × GValue) :=
  (kvLoop d (min (leVal (readBytesAt d 16 8)) 500) 24 []).1

/-- Derived metadata lookup with the `||` fallback to the literal `llama.*`
key: `metadata[`${architecture}$suffix`] || metadata[fallback]`. -/
def deriveField (metadata : List (List Nat × GValue)) (arch : Option GValue)
    (suffix fallback : String) : Option GValue :=
  jsOr (recordGet metadata (archTemplateKey arch suffix))
    (recordGet metadata (strBytes fallback))

/-- The `embeddingLength² × blockCount × 4` parameter estimate, computed
only when both operands are truthy. -/
def deriveParameters (embeddingLength blockCount : Option GValue) :
    Option Int :=
  match embeddingLength, blockCount with
  | some e, some b =>
    if jsTruthy e && jsTruthy b then
      match toNumInt e, toNumInt b with
      | some x, some y => some (x * x * y * 4)
      | _, _ => none
    else none
  | _, _ => none

/-- The GGUFMetadata record parseGGUF returns once the magic and version
checks have passed: counts from the header, the loop's dictionary, and the
derived best-effort fields. -/
def buildGGUFMeta (filePath : List Char) (d : List Nat) : GGUFMeta :=
  { size := d.length,
    version := leVal (readBytesAt d 4 4),
    tensorCount := leVal (readBytesAt d 8 8),
    metadataKVCount := leVal (readBytesAt d 16 8),
    architecture := recordGet (ggufMetadataOf d) (strBytes "general.architecture"),
    quantization := detectQuantGo (toLowerChars (basenameOf filePath)) quantPatterns,
    contextLength :=
      deriveField (ggufMetadataOf d)
        (recordGet (ggufMetadataOf d) (strBytes "general.architecture"))
        ".context_length" "llama.context_length",
    embeddingLength :=
      deriveField (ggufMetadataOf d)
        (recordGet (ggufMetadataOf d) (strBytes "general.architecture"))
        ".embedding_length" "llama.embedding_length",
    parameters :=
      deriveParameters
        (deriveField (ggufMetadataOf d)
          (recordGet (ggufMetadataOf d) (strBytes "general.architecture"))
          ".embedding_length" "llama.embedding_length")
        (deriveField (ggufMetadataOf d)
          (recordGet (ggufMetadataOf d) (strBytes "general.architecture"))
          ".block_count" "llama.block_count"),
    metadata := ggufMetadataOf d }

/-- parseGGUF: magic and version checks, uint64 counts, the capped
key/value decode loop, then the derived best-effort fields. -/
def parseGGUF (filePath : List Char) (d : List Nat) : Except String GGUFMeta :=
  if asciiDecode (readBytesAt d 0 4) ≠ "GGUF".data then
    .error "Invalid GGUF magic"
  else if leVal (readBytesAt d 4 4) < 2 ∨ leVal (readBytesAt d 4 4) > 3 then
    .error "Unsupported GGUF version"
  else .ok (buildGGUFMeta filePath d)

-- ===========================================================================
-- Safetensors parser (parseSafetensors in src/core/editor.ts)
-- ===========================================================================

/-- A parsed JSON value, the result type of the external `JSON.parse`
builtin. Numbers are modelled as exact integers: safetensors shape
dimensions are non-negative integers, and no claim involves fractional
header numbers. `JSON.parse` never produces duplicate object keys (a later
duplicate overwrites), which theorems record as a `Nodup` hypothesis. -/
inductive Json where
  | jnull
  | jbool (b : Bool)
  | jnum (n : Int)
  | jstr (s : List Char)
  | jarr (xs : List Json)
  | jobj (entries : List (List Char × Json))

/-- JS property read `value.k` on a parsed JSON value: object lookup;
`undefined` (here `none`) on arrays, strings, numbers and booleans. The
caller handles the `null` case, where JS property access throws. -/
def jsGet (v : Json) (k : List Char) : Option Json :=
  match v with
  | .jobj entries => ((entries.find? (fun p => p.1 == k)).map (fun p => p.2))
  | _ => none

/-- JS `Object.entries`: field list of an object, index/element pairs of an
array, index/character pairs of a string, empty for numbers and booleans,
and a TypeError for `null`. -/
def jsEntries : Json → Except String (List (List Char × Json))
  | .jobj entries => .ok entries
  | .jarr xs => .ok (xs.enum.map (fun p => (natChars p.1, p.2)))
  | .jstr s => .ok (s.enum.map (fun p => (natChars p.1, Json.jstr [p.2])))
  | .jnull => .error "Cannot convert undefined or null to object"
  | .jbool _ => .ok []
  | .jnum _ => .ok []

/-- The `shape.reduce((a, b) => a * b, 1)` product: exact over integer
dimensions, with an empty shape giving 1. A non-numeric dimension is
modelled as an absent result, standing in for the NaN that JS
multiplication of non-numbers produces (JS ToNumber string coercions are
not reproduced; no claim involves non-numeric shape entries). -/
def prodDims : List Json → Option Int
  | [] => some 1
  | .jnum n :: rest => (prodDims rest).map (fun m => n * m)
  | _ :: _ => none

/-- NaN-propagating addition for the running `totalParams` accumulator. -/
def nanAdd : Option Int → Option Int → Option Int
  | some a, some b => some (a + b)
  | _, _ => none

/-- One entry of the tensors table: `{name, dtype, shape}` with the raw
looked-up property values (either may be absent, i.e. JS `undefined`). -/
structure TensorRec where
  name : List Char
  dtype : Option Json
  shape : Option Json

/-- Whether a JSON value is `null` (the one value whose property access
throws a TypeError in JS). -/
def isNull : Json → Bool
  | .jnull => true
  | _ => false

/-- The `for (const [key, value] of Object.entries(header))` walk: the
`__metadata__` entry becomes the metadata field, every other entry is
recorded as a tensor and its shape product accumulated. Property access on
a `null` value and `reduce` on anything but an array throw. -/
def walkHeader : List (List Char × Json) → Option Json → List TensorRec →
    Option Int → Except String (Option Json × List TensorRec × Option Int)
  | [] => fun md ts tp => .ok (md, ts, tp)
  | (k, v) :: rest => fun md ts tp =>
    if k = "__metadata__".data then walkHeader rest (some v) ts tp
    else if isNull v then .error "Cannot read properties of null"
    else
      match jsGet v "shape".data with
      | some (.jarr dims) =>
        walkHeader rest md
          (ts ++ [{ name := k, dtype := jsGet v "dtype".data,
                    shape := some (.jarr dims) }])
          (nanAdd tp (prodDims dims))
      | _ => .error "shape has no reduce"

/-- The SafetensorsMetadata record (constant `format` field and echoed
`path` omitted; `size` is the file's byte length from `stat`). -/
structure SafeMeta where
  size : Nat
  headerSize : Nat
  metadata : Option Json
  tensors : List TensorRec
  tensorCount : Nat
  parameters : Option Int

/-- parseSafetensors: uint64 header length at offset 0, 100 MiB bound,
then the JSON header walk. `jsonParse` is the external `JSON.parse` builtin
composed with the UTF-8 decode of the header bytes; it is a parameter so
that every theorem holds for every behaviour of that builtin. -/
def parseSafetensors (jsonParse : List Nat → Except String Json)
    (d : List Nat) : Except String SafeMeta :=
  let headerSize := leVal (readBytesAt d 0 8)
  if headerSize > 100 * 1024 * 1024 then .error "Header size too large"
  else
    match jsonParse (readBytesAt d 8 headerSize) with
    | .error e => .error e
    | .ok header =>
      match jsEntries header with
      | .error e => .error e
      | .ok entries =>
        match walkHeader entries none [] (some 0) with
        | .error e => .error e
        | .ok (md, ts, tp) =>
          .ok { size := d.length, headerSize, metadata := md, tensors := ts,
                tensorCount := ts.length, parameters := tp }

-- ===========================================================================
-- getModelInfo and formatSize (src/core/editor.ts)
-- ===========================================================================

/-- Two decimal digits with a leading zero, for `toFixed(2)` output. -/
def padTwo (n : Nat) : List Char :=
  if n < 10 then '0' :: natChars n else natChars n

/-- The `(num / den).toFixed(2)` display value, computed by exact rational
rounding (round half up). The double division JS performs first can shift a
result whose third decimal is on a rounding boundary; the formatted string
is display-only and no claim inspects its digits. -/
def toFixedTwo (num den : Nat) : List Char :=
  let q := (num * 200 + den) / (den * 2)
  natChars (q / 100) ++ '.' :: padTwo (q % 100)

/-- formatSize: largest unit among B/KB/MB/GB with two decimals. -/
def formatSize (bytes : Nat) : List Char :=
  if bytes ≥ 1024 * 1024 * 1024 then
    toFixedTwo bytes (1024 * 1024 * 1024) ++ " GB".data
  else if bytes ≥ 1024 * 1024 then
    toFixedTwo bytes (1024 * 1024) ++ " MB".data
  else if bytes ≥ 1024 then
    toFixedTwo bytes 1024 ++ " KB".data
  else natChars bytes ++ " bytes".data

/-- The `format` field of a ModelInfo. -/
inductive MFormat where
  | safetensors
  | gguf
  | unknown
deriving DecidableEq

/-- The format-specific `details` payload. -/
inductive Details where
  | safetensorsD (m : SafeMeta)
  | ggufD (m : GGUFMeta)

/-- An existing file presented to the reader: its path and its bytes
(`stat` reports `data.length` as its size). -/
structure MFile where
  path : List Char
  data : List Nat

/-- The ModelInfo record returned for one file. -/
structure ModelInfoR where
  path : List Char
  name : List Char
  format : MFormat
  size : Nat
  sizeFormatted : List Char
  details : Option Details
  error : Option String

/-- The ModelInfo record before format dispatch: stat size, basename,
format `unknown`, no details, no error. -/
def baseInfo (f : MFile) : ModelInfoR :=
  { path := f.path, name := basenameOf f.path, format := .unknown,
    size := f.data.length, sizeFormatted := formatSize f.data.length,
    details := none, error := none }

/-- getModelInfo: stat, basename, lower-cased extension dispatch; a parser
failure is caught and attached as `error` with `format` already set. -/
def getModelInfo (jsonParse : List Nat → Except String Json)
    (f : MFile) : ModelInfoR :=
  if toLowerChars (extnameOf f.path) = ".safetensors".data then
    match parseSafetensors jsonParse f.data with
    | .ok m => { baseInfo f with format := .safetensors,
                                 details := some (.safetensorsD m) }
    | .error e => { baseInfo f with format := .safetensors, error := some e }
  else if toLowerChars (extnameOf f.path) = ".gguf".data then
    match parseGGUF f.path f.data with
    | .ok m => { baseInfo f with format := .gguf,
                                 details := some (.ggufD m) }
    | .error e => { baseInfo f with format := .gguf, error := some e }
  else baseInfo f

-- ===========================================================================
-- listModels (src/core/editor.ts)
-- ===========================================================================

/-- A directory listing as reported by `readdir(dir, { withFileTypes: true })`,
in readdir order and in cons-cell form: `nilE` ends a listing, `fileE` is a
regular file with its bytes followed by the rest of the listing, and `dirE`
is a subdirectory with its own listing followed by the rest. (This is the
list of dirent entries, spelled as a single inductive so that the scan
recursion is structural.) -/
inductive FsListing where
  | nilE
  | fileE (name : List Char) (data : List Nat) (rest : FsListing)
  | dirE (name : List Char) (sub : FsListing) (rest : FsListing)

/-- The non-strict order a JS sort comparator induces: a pair is in order
when the comparator does not answer `gt` (a positive number). -/
def cmpLeB (lc : List Char → List Char → Ordering) (s t : List Char) : Bool :=
  !(lc s t == Ordering.gt)

/-- Sort relation on ModelInfo records used by the `models.sort` comparator
`(a, b) => a.name.localeCompare(b.name)`. Here `lc` stands for the external
`String.prototype.localeCompare` builtin — an ICU collation whose tables
this development does not reproduce — taken as a parameter of the model
exactly like `JSON.parse`. -/
def modelLe (lc : List Char → List Char → Ordering) (a b : ModelInfoR) :
    Prop :=
  cmpLeB lc a.name b.name = true

instance (lc : List Char → List Char → Ordering) :
    DecidableRel (modelLe lc) := fun a b =>
  Bool.decEq (cmpLeB lc a.name b.name) true

/-- The scanDir walk: files whose lower-cased extension is `.safetensors`
or `.gguf` are read with getModelInfo, subdirectories are recursed into
when `recursive` is set, all in readdir order. -/
def scanDir (jsonParse : List Nat → Except String Json) (recursive : Bool) :
    FsListing → List Char → List ModelInfoR
  | .nilE => fun _ => []
  | .dirE nm sub rest => fun dp =>
    (if recursive then scanDir jsonParse recursive sub (dp ++ '/' :: nm)
     else []) ++ scanDir jsonParse recursive rest dp
  | .fileE nm data rest => fun dp =>
    (if toLowerChars (extnameOf nm) = ".safetensors".data ∨
        toLowerChars (extnameOf nm) = ".gguf".data then
       [getModelInfo jsonParse { path := dp ++ '/' :: nm, data }]
     else []) ++ scanDir jsonParse recursive rest dp

/-- The ModelListResult record. -/
structure ModelListR where
  directory : List Char
  models : List ModelInfoR
  totalCount : Nat
  totalSize : Nat
  totalSizeFormatted : List Char

/-- listModels: scan, aggregate, and sort by the `localeCompare` comparator
on the basename. The comparator is the external ICU-backed
`String.prototype.localeCompare` builtin, a parameter here like
`jsonParse`; `Array.prototype.sort` is a stable sort, so it is modelled by
the stable `List.insertionSort`. -/
def listModels (localeCompare : List Char → List Char → Ordering)
    (jsonParse : List Nat → Except String Json)
    (directory : List Char) (entries : FsListing)
    (recursive : Bool) : ModelListR :=
  let models := scanDir jsonParse recursive entries directory
  let totalSize := (models.map (fun m => m.size)).sum
  { directory,
    models := List.insertionSort (modelLe localeCompare) models,
    totalCount := models.length,
    totalSize,
    totalSizeFormatted := formatSize totalSize }

-- ===========================================================================
-- Specification-side auxiliary definitions
-- ===========================================================================

/-- Straight-line decode of `n` consecutive key/value pairs starting at
`off`, with no error recovery: `none` as soon as any pair fails. Used to
state which pairs of a stream decode successfully. -/
def kvIter (d : List Nat) : Nat → Nat → Option (List (List Nat × GValue) × Nat)
  | 0 => fun off => some ([], off)
  | n + 1 => fun off =>
    match readKVPair d off with
    | .error _ => none
    | .ok (kv, o1) =>
      match kvIter d n o1 with
      | none => none
      | some (ps, oe) => some (kv :: ps, oe)

/-- Dictionary obtained by assigning the listed pairs in order. -/
def buildRecord (acc : List (List Nat × GValue)) :
    List (List Nat × GValue) → List (List Nat × GValue)
  | [] => acc
  | (k, v) :: rest => buildRecord (recordInsert acc k v) rest

/-- Case-sensitive default string ordering (strict): lexicographic
comparison by code unit, the ordering JS `<` on strings and a
comparator-less `Array.sort` use. Stated by claim C7 as the list order. -/
def codeUnitLt : List Char → List Char → Bool
  | [], [] => false
  | [], _ :: _ => true
  | _ :: _, [] => false
  | a :: as, b :: bs => a.toNat < b.toNat || (a == b && codeUnitLt as bs)

/-- Number of files with a model extension that the scan visits. -/
def countModelFiles (recursive : Bool) : FsListing → Nat
  | .nilE => 0
  | .dirE _ sub rest =>
    (if recursive then countModelFiles recursive sub else 0) +
      countModelFiles recursive rest
  | .fileE nm _ rest =>
    (if toLowerChars (extnameOf nm) = ".safetensors".data ∨
        toLowerChars (extnameOf nm) = ".gguf".data then 1 else 0) +
      countModelFiles recursive rest

/-- Total byte size of the files with a model extension that the scan
visits. -/
def totalModelBytes (recursive : Bool) : FsListing → Nat
  | .nilE => 0
  | .dirE _ sub rest =>
    (if recursive then totalModelBytes recursive sub else 0) +
      totalModelBytes recursive rest
  | .fileE nm data rest =>
    (if toLowerChars (extnameOf nm) = ".safetensors".data ∨
        toLowerChars (extnameOf nm) = ".gguf".data then data.length else 0) +
      totalModelBytes recursive rest

/-- A `JSON.parse` behaviour used to instantiate the builtin parameter in
concrete counterexamples and witnesses that never rely on it succeeding. -/
def jpErr : List Nat → Except String Json := fun _ => .error "SyntaxError"

-- ===========================================================================
-- C8: unknown extensions pass through untouched
-- ===========================================================================

/-- Claim C8: for every existing file whose lower-cased extension is neither
`.safetensors` nor `.gguf`, getModelInfo returns format `unknown`, no
details, no error, with path, name, size and sizeFormatted populated. -/
theorem claim_C8 (jsonParse : List Nat → Except String Json)
    (path : List Char) (data : List Nat)
    (h1 : toLowerChars (extnameOf path) ≠ ".safetensors".data)
    (h2 : toLowerChars (extnameOf path) ≠ ".gguf".data) :
    getModelInfo jsonParse { path, data } =
      { path := path, name := basenameOf path, format := .unknown,
        size := data.length, sizeFormatted := formatSize data.length,
        details := none, error := none } := by
  unfold getModelInfo
  rw [if_neg h1, if_neg h2]
  rfl

/-- Witness for C8: a `.txt` file. -/
theorem claim_C8_witness :
    toLowerChars (extnameOf "notes.txt".data) ≠ ".safetensors".data ∧
    toLowerChars (extnameOf "notes.txt".data) ≠ ".gguf".data ∧
    getModelInfo jpErr { path := "notes.txt".data, data := [1, 2, 3] } =
      { path := "notes.txt".data, name := "notes.txt".data,
        format := .unknown, size := 3,
        sizeFormatted := formatSize 3, details := none, error := none } :=
  ⟨by decide, by decide,
   claim_C8 jpErr "notes.txt".data [1, 2, 3] (by decide) (by decide)⟩

-- ===========================================================================
-- C2: oversized Safetensors header
-- ===========================================================================

/-- Claim C2: for every `.safetensors` file whose first 8 bytes encode (as
unsigned little-endian 64-bit) a header size above 100 MiB, getModelInfo
returns error set, details absent, and format still `safetensors`; being a
total function, it propagates no exception. -/
theorem claim_C2 (jsonParse : List Nat → Except String Json)
    (path : List Char) (data : List Nat)
    (hExt : toLowerChars (extnameOf path) = ".safetensors".data)
    (hBig : leVal (readBytesAt data 0 8) > 100 * 1024 * 1024) :
    (getModelInfo jsonParse { path, data }).format = .safetensors ∧
    (getModelInfo jsonParse { path, data }).details = none ∧
    (getModelInfo jsonParse { path, data }).error.isSome = true := by
  have hp : parseSafetensors jsonParse data = .error "Header size too large" := by
    unfold parseSafetensors
    rw [if_pos hBig]
  unfold getModelInfo
  rw [if_pos hExt, hp]
  exact ⟨rfl, rfl, rfl⟩

/-- Witness for C2: eight bytes encoding 100 MiB + 1. -/
theorem claim_C2_witness :
    toLowerChars (extnameOf "m.safetensors".data) = ".safetensors".data ∧
    leVal (readBytesAt [1, 0, 64, 6, 0, 0, 0, 0] 0 8) = 104857601 ∧
    (getModelInfo jpErr { path := "m.safetensors".data,
                          data := [1, 0, 64, 6, 0, 0, 0, 0] }).details = none ∧
    (getModelInfo jpErr { path := "m.safetensors".data,
                          data := [1, 0, 64, 6, 0, 0, 0, 0] }).error.isSome = true :=
  ⟨by decide, by decide,
   (claim_C2 jpErr "m.safetensors".data [1, 0, 64, 6, 0, 0, 0, 0]
     (by decide) (by decide)).2.1,
   (claim_C2 jpErr "m.safetensors".data [1, 0, 64, 6, 0, 0, 0, 0]
     (by decide) (by decide)).2.2⟩

-- ===========================================================================
-- C5: oversized GGUF arrays are not materialized
-- ===========================================================================

/-- Claim C5: readValue on an array-typed value (tag 9) whose declared
uint64 element count exceeds 100000 returns the placeholder summary string
(not an array of decoded elements), for any element type tag, and succeeds
having consumed only the 12 header bytes. -/
theorem readValue_oversized (d : List Nat) (fuel off : Nat)
    (hBig : leVal (readBytesAt d (off + 4) 8) > 100000) :
    readValueF d (fuel + 1) 9 off =
      .ok (.vstr (placeholderBytes (leVal (readBytesAt d (off + 4) 8))),
           off + 12) := by
  unfold readValueF
  rw [if_neg (by decide : ¬(9 : Nat) = 0), if_neg (by decide : ¬(9 : Nat) = 1),
      if_neg (by decide : ¬(9 : Nat) = 2), if_neg (by decide : ¬(9 : Nat) = 3),
      if_neg (by decide : ¬(9 : Nat) = 4), if_neg (by decide : ¬(9 : Nat) = 5),
      if_neg (by decide : ¬(9 : Nat) = 6), if_neg (by decide : ¬(9 : Nat) = 7),
      if_neg (by decide : ¬(9 : Nat) = 8), if_pos (rfl : (9 : Nat) = 9),
      if_pos hBig]

/-- Claim C5: readValue on an array-typed value (tag 9) whose declared
uint64 element count exceeds 100000 returns the placeholder summary string
(not an array of decoded elements), for any element type tag, and succeeds
having consumed only the 12 header bytes. -/
theorem claim_C5 (d : List Nat) (fuel off : Nat)
    (hBig : leVal (readBytesAt d (off + 4) 8) > 100000) :
    readValueF d (fuel + 1) 9 off =
      .ok (.vstr (placeholderBytes (leVal (readBytesAt d (off + 4) 8))),
           off + 12) :=
  readValue_oversized d fuel off hBig

/-- Witness for C5: a declared element count of 100001 (element type 6,
float32, never read). -/
theorem claim_C5_witness :
    leVal (readBytesAt [6, 0, 0, 0, 161, 134, 1, 0, 0, 0, 0, 0] (0 + 4) 8) =
      100001 ∧
    readValueF [6, 0, 0, 0, 161, 134, 1, 0, 0, 0, 0, 0] (14 + 1) 9 0 =
      .ok (.vstr (placeholderBytes 100001), 0 + 12) :=
  ⟨by decide,
   (claim_C5 [6, 0, 0, 0, 161, 134, 1, 0, 0, 0, 0, 0] 14 0 (by decide)).trans
     rfl⟩

/-- The metadata loop stops, keeping its accumulator, when the pair read
throws. -/
theorem kvLoop_step_err (d : List Nat) (n off : Nat)
    (acc : List (List Nat × GValue)) (e : String)
    (h : readKVPair d off = .error e) :
    kvLoop d (n + 1) off acc = (acc, off) := by
  rw [kvLoop]
  dsimp only
  rw [h]

/-- The metadata loop assigns a successfully read pair and continues at its
end offset. -/
theorem kvLoop_step_ok (d : List Nat) (n off : Nat)
    (acc : List (List Nat × GValue)) (k : List Nat) (v : GValue) (o1 : Nat)
    (h : readKVPair d off = .ok ((k, v), o1)) :
    kvLoop d (n + 1) off acc = kvLoop d n o1 (recordInsert acc k v) := by
  rw [kvLoop]
  dsimp only
  rw [h]

/-- The straight-line decode fails when the pair read throws. -/
theorem kvIter_step_err (d : List Nat) (n off : Nat) (e : String)
    (h : readKVPair d off = .error e) :
    kvIter d (n + 1) off = none := by
  rw [kvIter]
  dsimp only
  rw [h]

/-- The straight-line decode records a successfully read pair and prefixes
it onto the rest of the decode. -/
theorem kvIter_step_ok (d : List Nat) (n off : Nat)
    (k : List Nat) (v : GValue) (o1 : Nat)
    (ps : List (List Nat × GValue)) (oe : Nat)
    (h : readKVPair d off = .ok ((k, v), o1))
    (h2 : kvIter d n o1 = some (ps, oe)) :
    kvIter d (n + 1) off = some ((k, v) :: ps, oe) := by
  rw [kvIter]
  dsimp only
  rw [h]
  dsimp only
  rw [h2]

/-- The straight-line decode fails when the rest of the decode fails. -/
theorem kvIter_step_okNone (d : List Nat) (n off : Nat)
    (k : List Nat) (v : GValue) (o1 : Nat)
    (h : readKVPair d off = .ok ((k, v), o1))
    (h2 : kvIter d n o1 = none) :
    kvIter d (n + 1) off = none := by
  rw [kvIter]
  dsimp only
  rw [h]
  dsimp only
  rw [h2]

-- ===========================================================================
-- C9: the oversized-array placeholder does not skip the element bytes
-- ===========================================================================

/-- Claim C9: when readValue returns the oversized-array placeholder it has
consumed only the 4-byte element-type tag and 8-byte count, so the pair read
ends at the start of the array's element data (`off + keyLen + 24`, with no
element bytes added), and the metadata loop decodes the next pair from
exactly that cursor — inside the skipped array's element data, not at the
following pair boundary. -/
theorem claim_C9 (d : List Nat) (off cnt : Nat)
    (acc : List (List Nat × GValue))
    (hKey : ¬leVal (readBytesAt d off 8) > 10 * 1024 * 1024)
    (hType : leVal (readBytesAt d (off + 8 + leVal (readBytesAt d off 8)) 4) = 9)
    (hBig : leVal (readBytesAt d
        (off + 8 + leVal (readBytesAt d off 8) + 4 + 4) 8) > 100000) :
    readKVPair d off =
      .ok ((readBytesAt d (off + 8) (leVal (readBytesAt d off 8)),
            .vstr (placeholderBytes (leVal (readBytesAt d
              (off + 8 + leVal (readBytesAt d off 8) + 4 + 4) 8)))),
           off + 8 + leVal (readBytesAt d off 8) + 4 + 12) ∧
    kvLoop d (cnt + 1) off acc =
      kvLoop d cnt (off + 8 + leVal (readBytesAt d off 8) + 4 + 12)
        (recordInsert acc
          (readBytesAt d (off + 8) (leVal (readBytesAt d off 8)))
          (.vstr (placeholderBytes (leVal (readBytesAt d
            (off + 8 + leVal (readBytesAt d off 8) + 4 + 4) 8))))) := by
  have hs : readStringV d off =
      .ok (readBytesAt d (off + 8) (leVal (readBytesAt d off 8)),
           off + 8 + leVal (readBytesAt d off 8)) := by
    unfold readStringV
    rw [if_neg hKey]
  have hv : readValueF d (d.length + 2) 9
      (off + 8 + leVal (readBytesAt d off 8) + 4) =
      .ok (.vstr (placeholderBytes (leVal (readBytesAt d
        (off + 8 + leVal (readBytesAt d off 8) + 4 + 4) 8))),
        off + 8 + leVal (readBytesAt d off 8) + 4 + 12) :=
    readValue_oversized d (d.length + 1) _ hBig
  have h1 : readKVPair d off =
      .ok ((readBytesAt d (off + 8) (leVal (readBytesAt d off 8)),
            .vstr (placeholderBytes (leVal (readBytesAt d
              (off + 8 + leVal (readBytesAt d off 8) + 4 + 4) 8)))),
           off + 8 + leVal (readBytesAt d off 8) + 4 + 12) := by
    unfold readKVPair
    rw [hs]
    dsimp only
    rw [hType, hv]
  refine ⟨h1, ?_⟩
  rw [kvLoop_step_ok d cnt off acc _ _ _ h1]

/-- Witness for C9: a 9-typed value declaring 100001 elements followed by
three bytes of element data; the pair read stops at offset 25, the start of
that element data. -/
theorem claim_C9_witness :
    leVal (readBytesAt
      [1, 0, 0, 0, 0, 0, 0, 0, 107, 9, 0, 0, 0, 0, 0, 0, 0,
       161, 134, 1, 0, 0, 0, 0, 0, 1, 2, 3] (0 + 8 + 1) 4) = 9 ∧
    readKVPair
      [1, 0, 0, 0, 0, 0, 0, 0, 107, 9, 0, 0, 0, 0, 0, 0, 0,
       161, 134, 1, 0, 0, 0, 0, 0, 1, 2, 3] 0 =
      .ok (([107], .vstr (placeholderBytes 100001)), 25) :=
  ⟨by decide,
   (claim_C9
     [1, 0, 0, 0, 0, 0, 0, 0, 107, 9, 0, 0, 0, 0, 0, 0, 0,
      161, 134, 1, 0, 0, 0, 0, 0, 1, 2, 3] 0 0 []
     (by decide) (by decide) (by decide)).1.trans rfl⟩

-- ===========================================================================
-- parseGGUF and getModelInfo inversion lemmas
-- ===========================================================================

/-- With a good magic and version, parseGGUF always returns normally: the
key/value loop catches its own failures and the derived fields are total. -/
theorem parseGGUF_isOk (path : List Char) (data : List Nat)
    (hMagic : asciiDecode (readBytesAt data 0 4) = "GGUF".data)
    (hVer : leVal (readBytesAt data 4 4) = 2 ∨ leVal (readBytesAt data 4 4) = 3) :
    (parseGGUF path data).isOk = true := by
  unfold parseGGUF
  rw [if_neg (by simp [hMagic]), if_neg (by omega)]
  rfl

/-- With a bad magic (after the high-bit clearing of the `ascii` decode) or
a version other than 2 and 3, parseGGUF throws. -/
theorem parseGGUF_notOk (path : List Char) (data : List Nat)
    (hBad : asciiDecode (readBytesAt data 0 4) ≠ "GGUF".data ∨
      (leVal (readBytesAt data 4 4) ≠ 2 ∧ leVal (readBytesAt data 4 4) ≠ 3)) :
    (parseGGUF path data).isOk = false := by
  unfold parseGGUF
  by_cases hm : asciiDecode (readBytesAt data 0 4) = "GGUF".data
  · rcases hBad with hb | hb
    · exact absurd hm hb
    · rw [if_neg (by simp [hm]),
        if_pos (by omega : leVal (readBytesAt data 4 4) < 2 ∨
          leVal (readBytesAt data 4 4) > 3)]
      rfl
  · rw [if_pos hm]
    rfl

/-- Inversion: a successful parseGGUF result carries the quantization
detected from the lower-cased basename and the metadata dictionary computed
by the capped key/value loop. -/
theorem parseGGUF_ok_inv (path : List Char) (data : List Nat) (m : GGUFMeta)
    (h : parseGGUF path data = .ok m) :
    m.quantization = detectQuantGo (toLowerChars (basenameOf path)) quantPatterns ∧
    m.metadata =
      (kvLoop data (min (leVal (readBytesAt data 16 8)) 500) 24 []).1 := by
  unfold parseGGUF at h
  by_cases hm : asciiDecode (readBytesAt data 0 4) = "GGUF".data
  · rw [if_neg (by simp [hm])] at h
    by_cases hv : leVal (readBytesAt data 4 4) < 2 ∨ leVal (readBytesAt data 4 4) > 3
    · rw [if_pos hv] at h
      exact absurd h (by simp)
    · rw [if_neg hv] at h
      injection h with h
      subst h
      constructor
      · simp only [buildGGUFMeta]
      · simp only [buildGGUFMeta, ggufMetadataOf]
  · rw [if_pos hm] at h
    exact absurd h (by simp)

/-- On a `.gguf` path, a parser failure surfaces as the `error` field with
format set and no details. -/
theorem getModelInfo_gguf_err (jsonParse : List Nat → Except String Json)
    (path : List Char) (data : List Nat)
    (hExt : toLowerChars (extnameOf path) = ".gguf".data)
    (hBad : (parseGGUF path data).isOk = false) :
    (getModelInfo jsonParse { path, data }).error.isSome = true ∧
    (getModelInfo jsonParse { path, data }).details = none ∧
    (getModelInfo jsonParse { path, data }).format = .gguf := by
  unfold getModelInfo
  rw [hExt]
  rw [if_neg (by decide), if_pos rfl]
  cases hp : parseGGUF path data with
  | ok m => rw [hp] at hBad; exact absurd hBad (by simp [Except.isOk, Except.toBool])
  | error e => exact ⟨rfl, rfl, rfl⟩

/-- On a `.gguf` path, a successful parse is attached as details with no
error. -/
theorem getModelInfo_gguf_ok (jsonParse : List Nat → Except String Json)
    (path : List Char) (data : List Nat)
    (hExt : toLowerChars (extnameOf path) = ".gguf".data)
    (hOk : (parseGGUF path data).isOk = true) :
    (getModelInfo jsonParse { path, data }).error = none ∧
    (getModelInfo jsonParse { path, data }).details.isSome = true ∧
    (getModelInfo jsonParse { path, data }).format = .gguf := by
  unfold getModelInfo
  rw [hExt]
  rw [if_neg (by decide), if_pos rfl]
  cases hp : parseGGUF path data with
  | ok m => exact ⟨rfl, rfl, rfl⟩
  | error e => rw [hp] at hOk; exact absurd hOk (by simp [Except.isOk, Except.toBool])

-- ===========================================================================
-- C3: GGUF magic/version validation (corrected: the `ascii` decode clears
-- the high bit of each byte before the magic comparison)
-- ===========================================================================

/-- Claim C3 as amended: for a `.gguf` file, if the first 4 bytes after the
high-bit clearing of Node's `ascii` decoding differ from `GGUF`, or the
following uint32 version is neither 2 nor 3, getModelInfo reports an error
with no details; if the decoded magic is `GGUF` and the version is 2 or 3,
parsing proceeds past the magic/version checks and returns normally. -/
theorem claim_C3 (jsonParse : List Nat → Except String Json)
    (path : List Char) (data : List Nat)
    (hExt : toLowerChars (extnameOf path) = ".gguf".data) :
    ((asciiDecode (readBytesAt data 0 4) ≠ "GGUF".data ∨
      (leVal (readBytesAt data 4 4) ≠ 2 ∧ leVal (readBytesAt data 4 4) ≠ 3)) →
      (getModelInfo jsonParse { path, data }).error.isSome = true ∧
      (getModelInfo jsonParse { path, data }).details = none ∧
      (getModelInfo jsonParse { path, data }).format = .gguf) ∧
    ((asciiDecode (readBytesAt data 0 4) = "GGUF".data ∧
      (leVal (readBytesAt data 4 4) = 2 ∨ leVal (readBytesAt data 4 4) = 3)) →
      (parseGGUF path data).isOk = true ∧
      (getModelInfo jsonParse { path, data }).error = none ∧
      (getModelInfo jsonParse { path, data }).details.isSome = true) := by
  constructor
  · intro hBad
    refine getModelInfo_gguf_err jsonParse path data hExt ?_
    refine parseGGUF_notOk path data ?_
    rcases hBad with hb | hb
    · exact Or.inl hb
    · exact Or.inr hb
  · intro hGood
    have hOk := parseGGUF_isOk path data hGood.1 hGood.2
    have hg := getModelInfo_gguf_ok jsonParse path data hExt hOk
    exact ⟨hOk, hg.1, hg.2.1⟩

/-- Counterexample to claim C3 as stated: a file whose first four bytes are
`C7 47 55 46` — not the ASCII bytes `47 47 55 46` of `GGUF` — still passes
the magic check, because Node's `buffer.toString('ascii')` clears the high
bit of every byte (`C7 → 47`), and with version 2 it parses with no error
instead of the claimed `ModelInfo.error`. -/
theorem claim_C3_counterexample :
    readBytesAt [199, 71, 85, 70, 2, 0, 0, 0] 0 4 ≠ strBytes "GGUF" ∧
    (getModelInfo jpErr
      { path := "m.gguf".data, data := [199, 71, 85, 70, 2, 0, 0, 0] }).error
        = none ∧
    (getModelInfo jpErr
      { path := "m.gguf".data, data := [199, 71, 85, 70, 2, 0, 0, 0] }).details.isSome
        = true := by
  have hg := getModelInfo_gguf_ok jpErr "m.gguf".data [199, 71, 85, 70, 2, 0, 0, 0]
    (by decide)
    (parseGGUF_isOk "m.gguf".data [199, 71, 85, 70, 2, 0, 0, 0]
      (by decide) (Or.inl (by decide)))
  exact ⟨by decide, hg.1, hg.2.1⟩

/-- Witness for the amended C3, exercising both directions: version 1 with
a true magic fails with an error and no details, while a masked magic with
version 3 parses successfully. -/
theorem claim_C3_witness :
    ((getModelInfo jpErr
      { path := "a.gguf".data, data := [71, 71, 85, 70, 1, 0, 0, 0] }).error.isSome
        = true ∧
     (getModelInfo jpErr
      { path := "a.gguf".data, data := [71, 71, 85, 70, 1, 0, 0, 0] }).details
        = none) ∧
    (parseGGUF "b.gguf".data [71, 71, 85, 70, 3, 0, 0, 0]).isOk = true := by
  refine ⟨?_, ?_⟩
  · have h := (claim_C3 jpErr "a.gguf".data [71, 71, 85, 70, 1, 0, 0, 0]
      (by decide)).1 (Or.inr (by decide))
    exact ⟨h.1, h.2.1⟩
  · exact ((claim_C3 jpErr "b.gguf".data [71, 71, 85, 70, 3, 0, 0, 0]
      (by decide)).2 ⟨by decide, Or.inr (by decide)⟩).1

-- ===========================================================================
-- C6 / C10: quantization detection
-- ===========================================================================

/-- The first-match-wins pattern loop is `find?` followed by upper-casing. -/
theorem detectQuantGo_eq_find (fn : List Char) (ps : List (List Char)) :
    detectQuantGo fn ps =
      (ps.find? (fun p => listIncludes p fn)).map toUpperChars := by
  induction ps with
  | nil => rfl
  | cons p ps ih =>
    by_cases h : listIncludes p fn = true
    · have hf : List.find? (fun q => listIncludes q fn) (p :: ps) = some p :=
        List.find?_cons_of_pos _ h
      rw [detectQuantGo, if_pos h, hf]
      rfl
    · have hf : List.find? (fun q => listIncludes q fn) (p :: ps) =
          List.find? (fun q => listIncludes q fn) ps :=
        List.find?_cons_of_neg _ h
      rw [detectQuantGo, if_neg h, hf, ih]

/-- A pattern that occurs as a leading segment occurs in the string. -/
theorem listIncludes_of_beginWith {pat s : List Char}
    (h : charsBeginWith pat s = true) : listIncludes pat s = true := by
  cases s with
  | nil =>
    cases pat with
    | nil => rfl
    | cons p ps => exact absurd h (by simp [charsBeginWith])
  | cons c t =>
    rw [listIncludes, h]
    rfl

/-- Dropping the first character of an occurring pattern keeps it
occurring. -/
theorem listIncludes_of_cons {c : Char} {pat fn : List Char}
    (h : listIncludes (c :: pat) fn = true) : listIncludes pat fn = true := by
  induction fn with
  | nil => exact absurd h (by simp [listIncludes, List.isEmpty])
  | cons a t ih =>
    rw [listIncludes] at h
    rcases Bool.or_eq_true_iff.mp h with hb | hi
    · rw [charsBeginWith] at hb
      have h2 := (Bool.and_eq_true_iff.mp hb).2
      rw [listIncludes]
      exact Bool.or_eq_true_iff.mpr (Or.inr (listIncludes_of_beginWith h2))
    · rw [listIncludes]
      exact Bool.or_eq_true_iff.mpr (Or.inr (ih hi))

/-- Claim C6: the quantization reported by parseGGUF is exactly the first
pattern of the fixed ordered list contained in the lower-cased basename of
the file path, upper-cased — derived from the filename alone, absent when
no pattern occurs. -/
theorem claim_C6 (path : List Char) (data : List Nat) (m : GGUFMeta)
    (h : parseGGUF path data = .ok m) :
    m.quantization =
      (quantPatterns.find?
        (fun p => listIncludes p (toLowerChars (basenameOf path)))).map
        toUpperChars := by
  rw [(parseGGUF_ok_inv path data m h).1, detectQuantGo_eq_find]

/-- Witness for C6: a filename containing both `q8_0` and `q4_k` reports
`Q4_K`, the earlier pattern of the fixed list. -/
theorem claim_C6_witness :
    (parseGGUF "model.q8_0.q4_k.gguf".data [71, 71, 85, 70, 2, 0, 0, 0]).map
      (fun m => m.quantization) = .ok (some "Q4_K".data) := by
  cases hp : parseGGUF "model.q8_0.q4_k.gguf".data [71, 71, 85, 70, 2, 0, 0, 0] with
  | error e =>
    have hOk := parseGGUF_isOk "model.q8_0.q4_k.gguf".data
      [71, 71, 85, 70, 2, 0, 0, 0] (by decide) (Or.inl (by decide))
    rw [hp] at hOk
    exact absurd hOk (by simp [Except.isOk, Except.toBool])
  | ok m =>
    have hq := claim_C6 "model.q8_0.q4_k.gguf".data
      [71, 71, 85, 70, 2, 0, 0, 0] m hp
    simp only [Except.map]
    rw [hq]
    exact congrArg Except.ok (by decide)

/-- Claim C10: the quantization detector never reports `BF16`: a filename
containing `bf16` also contains `f16`, which precedes `bf16` in the fixed
pattern list, so the scan stops at or before `F16`. -/
theorem claim_C10 (path : List Char) (data : List Nat) (m : GGUFMeta)
    (h : parseGGUF path data = .ok m) :
    m.quantization ≠ some "BF16".data := by
  rw [(parseGGUF_ok_inv path data m h).1, detectQuantGo_eq_find]
  intro hEq
  obtain ⟨a, hfind, hup⟩ := Option.map_eq_some'.mp hEq
  have hmem := List.mem_of_find?_eq_some hfind
  have hpred := List.find?_some hfind
  have ha : a = "bf16".data := by
    simp only [quantPatterns, List.mem_cons, List.not_mem_nil, or_false] at hmem
    rcases hmem with rfl | rfl | rfl | rfl | rfl | rfl | rfl | rfl | rfl |
      rfl | rfl | rfl | rfl | rfl | rfl | rfl | rfl <;>
      first
        | rfl
        | exact absurd hup (by decide)
  subst ha
  have hf16 : listIncludes "f16".data (toLowerChars (basenameOf path)) = true :=
    listIncludes_of_cons (c := 'b') hpred
  have hsplit : quantPatterns =
      ["q2_k".data, "q3_k".data, "q4_k".data, "q4_0".data, "q4_1".data,
       "q5_k".data, "q5_0".data, "q5_1".data, "q6_k".data, "q8_0".data,
       "q8_1".data] ++
      ("f16".data ::
        ["f32".data, "bf16".data, "iq2".data, "iq3".data, "iq4".data]) := rfl
  rw [hsplit, List.find?_append] at hfind
  cases hpre : List.find?
      (fun p => listIncludes p (toLowerChars (basenameOf path)))
      ["q2_k".data, "q3_k".data, "q4_k".data, "q4_0".data, "q4_1".data,
       "q5_k".data, "q5_0".data, "q5_1".data, "q6_k".data, "q8_0".data,
       "q8_1".data] with
  | some b =>
    rw [hpre] at hfind
    simp only [Option.or_some, Option.some.injEq] at hfind
    subst hfind
    have := List.mem_of_find?_eq_some hpre
    exact absurd this (by decide)
  | none =>
    rw [hpre] at hfind
    simp only [Option.none_or] at hfind
    have hcons : List.find?
        (fun p => listIncludes p (toLowerChars (basenameOf path)))
        ("f16".data ::
          ["f32".data, "bf16".data, "iq2".data, "iq3".data, "iq4".data]) =
        some "f16".data :=
      List.find?_cons_of_pos _ hf16
    rw [hcons] at hfind
    exact absurd hfind (by decide)

/-- Witness for C10: a filename containing `bf16` reports `F16`. -/
theorem claim_C10_witness :
    (parseGGUF "model.bf16.gguf".data [71, 71, 85, 70, 3, 0, 0, 0]).map
      (fun m => m.quantization) = .ok (some "F16".data) ∧
    (∀ m, parseGGUF "model.bf16.gguf".data [71, 71, 85, 70, 3, 0, 0, 0] =
      .ok m → m.quantization ≠ some "BF16".data) := by
  constructor
  · cases hp : parseGGUF "model.bf16.gguf".data [71, 71, 85, 70, 3, 0, 0, 0] with
    | error e =>
      have hOk := parseGGUF_isOk "model.bf16.gguf".data
        [71, 71, 85, 70, 3, 0, 0, 0] (by decide) (Or.inr (by decide))
      rw [hp] at hOk
      exact absurd hOk (by simp [Except.isOk, Except.toBool])
    | ok m =>
      have hq := (parseGGUF_ok_inv "model.bf16.gguf".data
        [71, 71, 85, 70, 3, 0, 0, 0] m hp).1
      simp only [Except.map]
      rw [hq]
      exact congrArg Except.ok (by decide)
  · intro m hp
    exact claim_C10 "model.bf16.gguf".data [71, 71, 85, 70, 3, 0, 0, 0] m hp

-- ===========================================================================
-- C1: partial metadata on a malformed pair
-- ===========================================================================

/-- If the first `n` pairs decode and the next one fails, the guarded loop
(of any bound above `n`) returns exactly those `n` assignments and stops at
the failing pair's offset. -/
theorem kvLoop_stops (d : List Nat) (n : Nat) :
    ∀ (cnt off : Nat) (acc pairs : List (List Nat × GValue)) (oe : Nat),
      kvIter d n off = some (pairs, oe) →
      (readKVPair d oe).isOk = false →
      n < cnt →
      kvLoop d cnt off acc = (buildRecord acc pairs, oe) := by
  induction n with
  | zero =>
    intro cnt off acc pairs oe hIter hFail hlt
    have h0 : kvIter d 0 off = some ([], off) := by rw [kvIter]
    rw [h0] at hIter
    simp only [Option.some.injEq, Prod.mk.injEq] at hIter
    obtain ⟨h1, h2⟩ := hIter
    subst h1
    subst h2
    cases cnt with
    | zero => omega
    | succ c =>
      cases hkv : readKVPair d off with
      | error e => rw [kvLoop_step_err d c off acc e hkv]; rfl
      | ok kvp =>
        rw [hkv] at hFail
        exact absurd hFail (by simp [Except.isOk, Except.toBool])
  | succ k ih =>
    intro cnt off acc pairs oe hIter hFail hlt
    cases hkv : readKVPair d off with
    | error e =>
      rw [kvIter_step_err d k off e hkv] at hIter
      exact absurd hIter (by simp)
    | ok kvp =>
      obtain ⟨⟨k0, v0⟩, o1⟩ := kvp
      cases hit : kvIter d k o1 with
      | none =>
        rw [kvIter_step_okNone d k off k0 v0 o1 hkv hit] at hIter
        exact absurd hIter (by simp)
      | some pso =>
        obtain ⟨ps, oe2⟩ := pso
        rw [kvIter_step_ok d k off k0 v0 o1 ps oe2 hkv hit] at hIter
        simp only [Option.some.injEq, Prod.mk.injEq] at hIter
        obtain ⟨h1, h2⟩ := hIter
        subst h1
        subst h2
        cases cnt with
        | zero => omega
        | succ c =>
          rw [kvLoop_step_ok d c off acc k0 v0 o1 hkv]
          rw [ih c o1 (recordInsert acc k0 v0) ps oe2 hit hFail (by omega)]
          rfl

/-- Claim C1: on a `.gguf` file with valid magic and version whose first
`n` metadata pairs decode and whose next pair throws inside the loop bound,
parseGGUF returns normally with exactly those `n` pairs assigned into the
metadata dictionary, and getModelInfo attaches the result as details with
no error. -/
theorem claim_C1 (jsonParse : List Nat → Except String Json)
    (path : List Char) (data : List Nat) (n : Nat)
    (pairs : List (List Nat × GValue)) (oe : Nat)
    (hExt : toLowerChars (extnameOf path) = ".gguf".data)
    (hMagic : asciiDecode (readBytesAt data 0 4) = "GGUF".data)
    (hVer : leVal (readBytesAt data 4 4) = 2 ∨ leVal (readBytesAt data 4 4) = 3)
    (hDec : kvIter data n 24 = some (pairs, oe))
    (hFail : (readKVPair data oe).isOk = false)
    (hBound : n < min (leVal (readBytesAt data 16 8)) 500) :
    (parseGGUF path data).map (fun m => m.metadata) =
      .ok (buildRecord [] pairs) ∧
    (getModelInfo jsonParse { path, data }).error = none ∧
    (getModelInfo jsonParse { path, data }).details.isSome = true := by
  have hkv : kvLoop data (min (leVal (readBytesAt data 16 8)) 500) 24 [] =
      (buildRecord [] pairs, oe) :=
    kvLoop_stops data n _ 24 [] pairs oe hDec hFail hBound
  have hMap : (parseGGUF path data).map (fun m => m.metadata) =
      .ok (buildRecord [] pairs) := by
    unfold parseGGUF
    rw [if_neg (by simp [hMagic]), if_neg (by omega)]
    simp only [Except.map, buildGGUFMeta, ggufMetadataOf]
    rw [hkv]
  have hOk := parseGGUF_isOk path data hMagic hVer
  have hg := getModelInfo_gguf_ok jsonParse path data hExt hOk
  exact ⟨hMap, hg.1, hg.2.1⟩

/-- The byte stream for the C1 witness: magic, version 3, zero tensors, a
declared pair count of 2, one well-formed uint8 pair `a ↦ 7`, then a pair
whose value carries the unknown type tag 99. -/
def c1data : List Nat :=
  [71, 71, 85, 70, 3, 0, 0, 0,
   0, 0, 0, 0, 0, 0, 0, 0,
   2, 0, 0, 0, 0, 0, 0, 0,
   1, 0, 0, 0, 0, 0, 0, 0, 97, 0, 0, 0, 0, 7,
   1, 0, 0, 0, 0, 0, 0, 0, 98, 99, 0, 0, 0]

/-- Witness for C1: the first pair decodes, the second throws on its type
tag, and the returned metadata holds exactly the first pair. -/
theorem claim_C1_witness :
    kvIter c1data 1 24 = some ([(([97] : List Nat), GValue.vnum 7)], 38) ∧
    (readKVPair c1data 38).isOk = false ∧
    (parseGGUF "m.gguf".data c1data).map (fun m => m.metadata) =
      .ok [(([97] : List Nat), GValue.vnum 7)] ∧
    (getModelInfo jpErr { path := "m.gguf".data, data := c1data }).error =
      none := by
  have h := claim_C1 jpErr "m.gguf".data c1data 1
    [([97], GValue.vnum 7)] 38
    (by decide) (by decide) (Or.inr (by decide)) rfl rfl (by decide)
  exact ⟨rfl, rfl, h.1, h.2.1⟩

-- ===========================================================================
-- C4: Safetensors parameter accounting
-- ===========================================================================

/-- Whether every element of a decoded shape is a JSON number. -/
def isNumList : List Json → Bool
  | [] => true
  | .jnum _ :: rest => isNumList rest
  | _ :: _ => false

/-- The product of a shape's dimensions (an empty shape has product 1). -/
def dimsProdInt (dims : List Json) : Int :=
  (dims.map (fun j => match j with | .jnum n => n | _ => 0)).prod

/-- The parameter contribution of one tensor descriptor. -/
def entryParams (v : Json) : Int :=
  match jsGet v "shape".data with
  | some (.jarr dims) => dimsProdInt dims
  | _ => 0

/-- Whether a tensor descriptor has a well-formed shape: a `shape` property
holding an array of numbers. -/
def shapeOk (v : Json) : Bool :=
  match jsGet v "shape".data with
  | some (.jarr dims) => isNumList dims
  | _ => false

/-- Header entries other than the reserved `__metadata__` key. -/
def nonMetaEntries (entries : List (List Char × Json)) :
    List (List Char × Json) :=
  entries.filter (fun kv => !(kv.1 == "__metadata__".data))

/-- A value with a well-formed shape is not `null`. -/
theorem shapeOk_not_null {v : Json} (h : shapeOk v = true) :
    isNull v = false := by
  cases v <;> first
    | rfl
    | (exfalso; simp [shapeOk, jsGet] at h)

/-- On all-numeric shapes the JS reduce computes exactly the integer
product. -/
theorem prodDims_eq {dims : List Json} (h : isNumList dims = true) :
    prodDims dims = some (dimsProdInt dims) := by
  induction dims with
  | nil => simp [prodDims, dimsProdInt]
  | cons j rest ih =>
    cases j with
    | jnum n =>
      rw [isNumList] at h
      rw [prodDims, ih h]
      simp [dimsProdInt, Option.map]
    | jnull => exact absurd h (by simp [isNumList])
    | jbool b => exact absurd h (by simp [isNumList])
    | jstr s => exact absurd h (by simp [isNumList])
    | jarr xs => exact absurd h (by simp [isNumList])
    | jobj e => exact absurd h (by simp [isNumList])

/-- The header walk on well-formed tensor descriptors counts one tensor per
non-`__metadata__` entry and accumulates the exact shape products. -/
theorem walkHeader_spec (entries : List (List Char × Json)) :
    ∀ (md : Option Json) (ts : List TensorRec) (tp : Int),
      (∀ kv ∈ entries, kv.1 ≠ "__metadata__".data → shapeOk kv.2 = true) →
      (walkHeader entries md ts (some tp)).map
          (fun r => (r.2.1.length, r.2.2)) =
        .ok (ts.length + (nonMetaEntries entries).length,
             some (tp +
               ((nonMetaEntries entries).map (fun kv => entryParams kv.2)).sum)) := by
  induction entries with
  | nil =>
    intro md ts tp _
    simp [walkHeader, nonMetaEntries, Except.map]
  | cons kv rest ih =>
    intro md ts tp hShapes
    obtain ⟨k, v⟩ := kv
    by_cases hk : k = "__metadata__".data
    · rw [walkHeader]
      dsimp only
      rw [if_pos hk]
      rw [ih (some v) ts tp (fun kv hm hne => hShapes kv (List.mem_cons_of_mem _ hm) hne)]
      have hf : nonMetaEntries ((k, v) :: rest) = nonMetaEntries rest := by
        simp [nonMetaEntries, List.filter_cons, hk]
      rw [hf]
    · have hs : shapeOk v = true := hShapes (k, v) (List.mem_cons_self _ _) hk
      cases hg : jsGet v "shape".data with
      | none => rw [shapeOk, hg] at hs; exact absurd hs (by simp)
      | some s =>
        cases s with
        | jarr dims =>
          rw [walkHeader]
          dsimp only
          rw [if_neg hk, if_neg (by rw [shapeOk_not_null hs]; exact (by simp)), hg]
          dsimp only
          rw [prodDims_eq (by rw [shapeOk, hg] at hs; exact hs)]
          have hn : nanAdd (some tp) (some (dimsProdInt dims)) =
              some (tp + dimsProdInt dims) := rfl
          rw [hn]
          rw [ih md _ (tp + dimsProdInt dims)
            (fun kv hm hne => hShapes kv (List.mem_cons_of_mem _ hm) hne)]
          have hf : nonMetaEntries ((k, v) :: rest) =
              (k, v) :: nonMetaEntries rest := by
            simp [nonMetaEntries, List.filter_cons, hk]
          rw [hf]
          refine congrArg Except.ok ?_
          refine Prod.ext ?_ ?_
          · simp [List.length_append]
            omega
          · simp only [List.map_cons, List.sum_cons]
            refine congrArg some ?_
            have he : entryParams v = dimsProdInt dims := by
              rw [entryParams, hg]
            rw [he]
            ring
        | jnull => rw [shapeOk, hg] at hs; exact absurd hs (by simp)
        | jbool b => rw [shapeOk, hg] at hs; exact absurd hs (by simp)
        | jnum n => rw [shapeOk, hg] at hs; exact absurd hs (by simp)
        | jstr s2 => rw [shapeOk, hg] at hs; exact absurd hs (by simp)
        | jobj e => rw [shapeOk, hg] at hs; exact absurd hs (by simp)

/-- Claim C4: for every Safetensors header that parses as a JSON object of
well-formed tensor descriptors, the returned parameters field is the sum
over the non-`__metadata__` keys of the product of that tensor's shape
dimensions (1 for an empty shape), and tensorCount is the number of those
keys. -/
theorem claim_C4 (jsonParse : List Nat → Except String Json)
    (data : List Nat) (entries : List (List Char × Json))
    (hSize : ¬leVal (readBytesAt data 0 8) > 100 * 1024 * 1024)
    (hJson : jsonParse (readBytesAt data 8 (leVal (readBytesAt data 0 8))) =
      .ok (.jobj entries))
    (_hKeys : (entries.map Prod.fst).Nodup)
    (hShapes : ∀ kv ∈ entries, kv.1 ≠ "__metadata__".data → shapeOk kv.2 = true) :
    (parseSafetensors jsonParse data).map
        (fun m => (m.tensorCount, m.parameters)) =
      .ok ((nonMetaEntries entries).length,
           some (((nonMetaEntries entries).map
             (fun kv => entryParams kv.2)).sum)) := by
  unfold parseSafetensors
  rw [if_neg hSize, hJson]
  dsimp only [jsEntries]
  cases hw : walkHeader entries none [] (some 0) with
  | error e =>
    have hspec := walkHeader_spec entries none [] 0 hShapes
    rw [hw] at hspec
    exact absurd hspec (by simp [Except.map])
  | ok r =>
    obtain ⟨md, ts, tp⟩ := r
    have hspec := walkHeader_spec entries none [] 0 hShapes
    rw [hw] at hspec
    simp only [Except.map, List.length_nil, Nat.zero_add, zero_add] at hspec ⊢
    exact hspec

/-- The synthetic header for the C4 witness: tensors of shapes `[2,3]`,
`[]` and `[4]`. -/
def c4entries : List (List Char × Json) :=
  [("t1".data, .jobj [("dtype".data, .jstr "F32".data),
                      ("shape".data, .jarr [.jnum 2, .jnum 3]),
                      ("data_offsets".data, .jarr [.jnum 0, .jnum 24])]),
   ("t2".data, .jobj [("shape".data, .jarr [])]),
   ("t3".data, .jobj [("shape".data, .jarr [.jnum 4])])]

/-- A `JSON.parse` behaviour producing the C4 witness header. -/
def jpC4 : List Nat → Except String Json := fun _ => .ok (.jobj c4entries)

/-- Witness for C4: shapes `[2,3]`, `[]`, `[4]` give 3 tensors and
`2*3 + 1 + 4 = 11` parameters. -/
theorem claim_C4_witness :
    (parseSafetensors jpC4 [0, 0, 0, 0, 0, 0, 0, 0]).map
        (fun m => (m.tensorCount, m.parameters)) = .ok (3, some 11) :=
  (claim_C4 jpC4 [0, 0, 0, 0, 0, 0, 0, 0] c4entries
    (by decide) rfl (by decide) (by decide)).trans
    (congrArg Except.ok (by decide))

-- ===========================================================================
-- C7: listModels aggregation and ordering
-- ===========================================================================

/-- Characterization of the sort relation in terms of the comparator. -/
theorem modelLe_iff (lc : List Char → List Char → Ordering)
    {a b : ModelInfoR} :
    modelLe lc a b ↔ lc a.name b.name ≠ Ordering.gt := by
  unfold modelLe cmpLeB
  cases h : lc a.name b.name <;> decide

/-- Every ModelInfo reports the stat size of its file. -/
theorem getModelInfo_size (jsonParse : List Nat → Except String Json)
    (f : MFile) : (getModelInfo jsonParse f).size = f.data.length := by
  unfold getModelInfo
  split
  · split <;> rfl
  · split
    · split <;> rfl
    · rfl

/-- The scan produces one entry per file with a model extension. -/
theorem scanDir_length (jsonParse : List Nat → Except String Json)
    (recursive : Bool) (t : FsListing) :
    ∀ dp, (scanDir jsonParse recursive t dp).length =
      countModelFiles recursive t := by
  induction t with
  | nilE => intro dp; rfl
  | fileE nm data rest ih =>
    intro dp
    rw [scanDir, countModelFiles]
    dsimp only
    rw [List.length_append, ih dp]
    by_cases h : toLowerChars (extnameOf nm) = ".safetensors".data ∨
        toLowerChars (extnameOf nm) = ".gguf".data
    · rw [if_pos h, if_pos h]
      rfl
    · rw [if_neg h, if_neg h]
      rfl
  | dirE nm sub rest ihs ihr =>
    intro dp
    rw [scanDir, countModelFiles]
    dsimp only
    rw [List.length_append, ihr dp]
    by_cases h : recursive = true
    · rw [if_pos h, if_pos h, ihs (dp ++ '/' :: nm)]
    · rw [if_neg h, if_neg h]
      rfl

/-- The scanned sizes sum to the byte total of the files with a model
extension. -/
theorem scanDir_sizes (jsonParse : List Nat → Except String Json)
    (recursive : Bool) (t : FsListing) :
    ∀ dp, ((scanDir jsonParse recursive t dp).map (fun m => m.size)).sum =
      totalModelBytes recursive t := by
  induction t with
  | nilE => intro dp; rfl
  | fileE nm data rest ih =>
    intro dp
    rw [scanDir, totalModelBytes]
    dsimp only
    rw [List.map_append, List.sum_append, ih dp]
    by_cases h : toLowerChars (extnameOf nm) = ".safetensors".data ∨
        toLowerChars (extnameOf nm) = ".gguf".data
    · rw [if_pos h, if_pos h]
      simp [getModelInfo_size]
    · rw [if_neg h, if_neg h]
      rfl
  | dirE nm sub rest ihs ihr =>
    intro dp
    rw [scanDir, totalModelBytes]
    dsimp only
    rw [List.map_append, List.sum_append, ihr dp]
    by_cases h : recursive = true
    · rw [if_pos h, if_pos h, ihs (dp ++ '/' :: nm)]
    · rw [if_neg h, if_neg h]
      rfl

/-- Claim C7 as amended: for every comparator behaviour of the external
`String.prototype.localeCompare` builtin (any consistent comparator:
oriented and transitive, as ICU collators are), listModels reports
totalCount equal to the number of files with extension `.safetensors` or
`.gguf` found by the scan and totalSize equal to the sum of those files'
byte sizes, and returns the models as a permutation of the scan results
sorted ascending by basename under that `localeCompare` ordering — not
under code-unit default string ordering. -/
theorem claim_C7 (localeCompare : List Char → List Char → Ordering)
    (hswap : ∀ s t, (localeCompare s t).swap = localeCompare t s)
    (htrans : ∀ s t u, localeCompare s t ≠ Ordering.gt →
      localeCompare t u ≠ Ordering.gt → localeCompare s u ≠ Ordering.gt)
    (jsonParse : List Nat → Except String Json)
    (directory : List Char) (entries : FsListing) (recursive : Bool) :
    (listModels localeCompare jsonParse directory entries recursive).totalCount =
      countModelFiles recursive entries ∧
    (listModels localeCompare jsonParse directory entries recursive).totalSize =
      totalModelBytes recursive entries ∧
    (listModels localeCompare jsonParse directory entries recursive).models.Perm
      (scanDir jsonParse recursive entries directory) ∧
    List.Sorted (modelLe localeCompare)
      (listModels localeCompare jsonParse directory entries recursive).models := by
  haveI : IsTrans ModelInfoR (modelLe localeCompare) :=
    ⟨fun a b c h1 h2 => (modelLe_iff localeCompare).mpr
      (htrans a.name b.name c.name ((modelLe_iff localeCompare).mp h1)
        ((modelLe_iff localeCompare).mp h2))⟩
  haveI : IsTotal ModelInfoR (modelLe localeCompare) := ⟨fun a b => by
    by_cases h : localeCompare a.name b.name = Ordering.gt
    · right
      refine (modelLe_iff localeCompare).mpr ?_
      have hs := hswap a.name b.name
      rw [h] at hs
      rw [← hs]
      decide
    · left
      exact (modelLe_iff localeCompare).mpr h⟩
  refine ⟨?_, ?_, ?_, ?_⟩
  · exact scanDir_length jsonParse recursive entries directory
  · exact scanDir_sizes jsonParse recursive entries directory
  · exact List.perm_insertionSort (modelLe localeCompare) _
  · exact List.sorted_insertionSort (modelLe localeCompare) _

/-- Case-folded primary weight of a character, for the sample comparator
below. -/
def lcPrimary (c : Char) : Nat :=
  (Char.toLower c).toNat

/-- Case weight of a character, for the sample comparator below: lowercase
before uppercase on a primary tie. -/
def lcCaseWeight (c : Char) : Nat :=
  if c.isLower then 0 else 1

/-- A concrete comparator used only to instantiate the `localeCompare`
parameter in the closed statements below: case-folded code points at the
primary level, case as tie-break. It is not a model of the full ICU root
collation — ICU's primary weights for punctuation and symbols differ from
code-point order — but the closed statements apply it only to names whose
first differing position is an ASCII letter, where it returns the same
answer as `localeCompare`. -/
def caseFoldCmp (s t : List Char) : Ordering :=
  (compare (s.map lcPrimary) (t.map lcPrimary)).then
    (compare (s.map lcCaseWeight) (t.map lcCaseWeight))

/-- Swapping the arguments of `Ordering.then` swaps the verdict. -/
theorem ordering_then_swap (a b : Ordering) :
    (a.then b).swap = a.swap.then b.swap := by
  cases a <;> rfl

/-- The sample comparator is oriented. -/
theorem caseFoldCmp_swap (s t : List Char) :
    (caseFoldCmp s t).swap = caseFoldCmp t s := by
  unfold caseFoldCmp
  rw [ordering_then_swap,
    @Batteries.OrientedCmp.symm _ compare _ (s.map lcPrimary) (t.map lcPrimary),
    @Batteries.OrientedCmp.symm _ compare _ (s.map lcCaseWeight)
      (t.map lcCaseWeight)]

/-- The non-strict order of the sample comparator is transitive. -/
theorem caseFoldCmp_le_trans : ∀ (a b c : List Char),
    caseFoldCmp a b ≠ Ordering.gt → caseFoldCmp b c ≠ Ordering.gt →
    caseFoldCmp a c ≠ Ordering.gt := by
  intro a b c h1 h2
  unfold caseFoldCmp at h1 h2 ⊢
  rcases hp1 : compare (a.map lcPrimary) (b.map lcPrimary) with _ | _ | _ <;>
    rw [hp1] at h1 <;>
    rcases hp2 : compare (b.map lcPrimary) (c.map lcPrimary) with _ | _ | _ <;>
    rw [hp2] at h2 <;>
    simp only [Ordering.then] at h1 h2 ⊢
  · rw [Batteries.TransCmp.lt_trans hp1 hp2]
    simp
  · rw [← Batteries.TransCmp.cmp_congr_right hp2, hp1]
    simp
  · exact absurd rfl h2
  · rw [Batteries.TransCmp.cmp_congr_left hp1, hp2]
    simp
  · rw [Batteries.TransCmp.cmp_congr_left hp1, hp2]
    exact Batteries.TransCmp.le_trans h1 h2
  · exact absurd rfl h2
  · exact absurd rfl h1
  · exact absurd rfl h1
  · exact absurd rfl h1

/-- The two-file directory of the C7 counterexample, in readdir order. -/
def c7listing : FsListing :=
  .fileE "B.safetensors".data [0]
    (.fileE "a.safetensors".data [0] .nilE)

/-- Counterexample to claim C7 as stated: the sort comparator is
`localeCompare`, not case-sensitive default string ordering. The
comparator parameter is instantiated with the sample collation, which
answers exactly as `localeCompare` does on these two names (their first
characters `B` and `a` decide at the letter level, where ICU compares
case-insensitively, so `a.safetensors` sorts first). The listing comes
back ordered `a.safetensors` before `B.safetensors`, although in code-unit
ordering `B.safetensors` is strictly smaller — the models are not sorted
ascending by default string ordering. -/
theorem claim_C7_counterexample :
    ((listModels caseFoldCmp jpErr "d".data c7listing true).models.map
        (fun m => m.name) =
      ["a.safetensors".data, "B.safetensors".data]) ∧
    codeUnitLt "B.safetensors".data "a.safetensors".data = true := by
  constructor
  · decide
  · decide

/-- The three-file directory of the C7 witness, with sizes 100, 200 and
300 bytes. -/
def c7sizes : FsListing :=
  .fileE "w1.safetensors".data (List.replicate 100 0)
    (.fileE "w2.safetensors".data (List.replicate 200 0)
      (.fileE "w3.safetensors".data (List.replicate 300 0) .nilE))

/-- Witness for the amended C7: three safetensors files of sizes 100, 200
and 300 bytes give totalCount 3 and totalSize 600, with the models sorted
under the instantiated comparator. -/
theorem claim_C7_witness :
    (listModels caseFoldCmp jpErr "d".data c7sizes true).totalCount = 3 ∧
    (listModels caseFoldCmp jpErr "d".data c7sizes true).totalSize = 600 ∧
    List.Sorted (modelLe caseFoldCmp)
      (listModels caseFoldCmp jpErr "d".data c7sizes true).models := by
  have h := claim_C7 caseFoldCmp caseFoldCmp_swap caseFoldCmp_le_trans jpErr
    "d".data c7sizes true
  exact ⟨h.1.trans (by decide), h.2.1.trans (by decide), h.2.2.2⟩
